import Mathlib

/-!
Verification of the discograph entity cache, interaction extraction and
command dispatch against their natural-language specification.

The definitions below are a shallow embedding of the Rust sources:
* `Lru` models the `lru` crate's `LruCache` as used by `src/cache.rs`
  (most-recently-used entry first; `put` inserts/refreshes at the front and
  evicts the last entry past capacity; `get` promotes the entry to the front);
* `Cache` and its `put_*` / `get_*` / `update` operations mirror
  `src/cache.rs` (remote HTTP calls are an oracle; every `get_*` reports how
  many remote fetches it performed);
* `Interaction` mirrors the interaction extractor;
* the command dispatch error path mirrors `src/commands.rs`.
-/

/-- Model of `lru::LruCache`: entries in most-recently-used-first order,
with a fixed capacity. -/
structure Lru (K V : Type) where
  cap : Nat
  entries : List (K × V)
deriving DecidableEq

namespace Lru

variable {K V : Type} [DecidableEq K]

/-- `LruCache::put`: move/insert the key to the front, evicting past capacity. -/
def put (c : Lru K V) (k : K) (v : V) : Lru K V :=
  { c with entries := ((k, v) :: c.entries.filter (fun p => !(p.1 == k))).take c.cap }

/-- `LruCache::get`: look the key up and promote it to most-recently-used. -/
def get (c : Lru K V) (k : K) : Option V × Lru K V :=
  match c.entries.find? (fun p => p.1 == k) with
  | some (_, v) =>
    (some v, { c with entries := (k, v) :: c.entries.filter (fun p => !(p.1 == k)) })
  | none => (none, c)

/-- The keys currently stored, most-recently-used first. -/
def keys (c : Lru K V) : List K := c.entries.map Prod.fst

/-- Fold a list of `put`s over the table, oldest first. -/
def putAll (c : Lru K V) (ps : List (K × V)) : Lru K V :=
  ps.foldl (fun c p => c.put p.1 p.2) c

@[simp] theorem putAll_nil (c : Lru K V) : putAll c [] = c := rfl

@[simp] theorem putAll_cons (c : Lru K V) (p : K × V) (ps : List (K × V)) :
    putAll c (p :: ps) = putAll (c.put p.1 p.2) ps := rfl

@[simp] theorem cap_put (c : Lru K V) (k : K) (v : V) : (c.put k v).cap = c.cap := rfl

@[simp] theorem cap_putAll (c : Lru K V) (ps : List (K × V)) :
    (putAll c ps).cap = c.cap := by
  induction ps generalizing c with
  | nil => rfl
  | cons p ps ih => simpa using ih (c.put p.1 p.2)

theorem mem_keys_iff (c : Lru K V) (k : K) :
    k ∈ c.keys ↔ ∃ v, (k, v) ∈ c.entries := by
  unfold keys
  constructor
  · intro h
    obtain ⟨p, hp, hpk⟩ := List.mem_map.mp h
    exact ⟨p.2, by simpa [← hpk] using hp⟩
  · rintro ⟨v, hv⟩
    exact List.mem_map.mpr ⟨(k, v), hv, rfl⟩

/-- An element of the first `m` entries that survives filtering is among the
first `m` filtered entries. -/
theorem mem_take_filter {α : Type} (p : α → Bool) :
    ∀ (l : List α) (m : Nat) (x : α), x ∈ l.take m → p x = true →
      x ∈ (l.filter p).take m := by
  intro l
  induction l with
  | nil => intro m x h _; simp at h
  | cons a t ih =>
    intro m x h hx
    cases m with
    | zero => simp at h
    | succ m =>
      simp only [List.take_succ_cons, List.mem_cons] at h
      rcases h with rfl | h
      · simp [List.filter_cons, hx]
      · by_cases ha : p a
        · simpa [List.filter_cons, ha] using Or.inr (ih m x h hx)
        · have hmem := ih m x h hx
          have : (t.filter p).take m ⊆ (t.filter p).take (m + 1) := by
            intro y hy
            rw [List.take_succ]
            exact List.mem_append_left _ hy
          simpa [List.filter_cons, ha] using this hmem

theorem mem_take_mono {α : Type} {l : List α} {i j : Nat} (hij : i ≤ j) {x : α}
    (h : x ∈ l.take i) : x ∈ l.take j := by
  have : l.take i = (l.take j).take i := by
    rw [List.take_take, Nat.min_eq_left hij]
  rw [this] at h
  exact List.take_subset _ _ h

/-- A key among the first `m` entries survives a `put` of a different key,
as long as `m + 1` is within capacity. -/
theorem mem_take_put_of_ne {c : Lru K V} {k k' : K} (v' : V) {m : Nat}
    (hne : k ≠ k') (h : ∃ v, (k, v) ∈ c.entries.take m) (hcap : m + 1 ≤ c.cap) :
    ∃ v, (k, v) ∈ (c.put k' v').entries.take (m + 1) := by
  obtain ⟨v, hv⟩ := h
  refine ⟨v, ?_⟩
  show (k, v) ∈ (((k', v') :: c.entries.filter (fun p => !(p.1 == k'))).take c.cap).take (m + 1)
  rw [List.take_take, inf_eq_left.mpr hcap, List.take_succ_cons]
  refine List.mem_cons_of_mem _ ?_
  exact mem_take_filter _ c.entries m (k, v) hv (by simp [hne])

/-- After `put k v` the key `k` heads the table (capacity permitting). -/
theorem mem_take_one_put {c : Lru K V} (k : K) (v : V) (hcap : 1 ≤ c.cap) :
    ∃ w, (k, w) ∈ (c.put k v).entries.take 1 := by
  refine ⟨v, ?_⟩
  show (k, v) ∈ (((k, v) :: c.entries.filter (fun p => !(p.1 == k))).take c.cap).take 1
  rw [List.take_take, inf_eq_left.mpr hcap]
  simp

/-- A key among the first `m` entries survives any further sequence of `put`s
that fits inside the capacity. -/
theorem mem_take_putAll :
    ∀ (ps : List (K × V)) (c : Lru K V) (k : K) (m : Nat),
      (∃ v, (k, v) ∈ c.entries.take m) → m + ps.length ≤ c.cap →
      ∃ v, (k, v) ∈ (putAll c ps).entries.take (m + ps.length) := by
  intro ps
  induction ps with
  | nil => intro c k m h _; simpa using h
  | cons p ps ih =>
    intro c k m h hcap
    rw [List.length_cons] at hcap
    by_cases hk : p.1 = k
    · have hcap1 : 1 ≤ c.cap := by omega
      have hfront : ∃ w, (k, w) ∈ (c.put p.1 p.2).entries.take 1 := by
        subst hk; exact mem_take_one_put p.1 p.2 hcap1
      have hrec := ih (c.put p.1 p.2) k 1 hfront (by rw [cap_put]; omega)
      rw [putAll_cons]
      have hle : 1 + ps.length ≤ m + (p :: ps).length := by
        by_cases hm : m = 0
        · subst hm
          obtain ⟨v, hv⟩ := h
          simp at hv
        · rw [List.length_cons]; omega
      exact ⟨hrec.choose, mem_take_mono hle hrec.choose_spec⟩
    · have hstep := mem_take_put_of_ne p.2 (Ne.symm (by simpa using hk)) h
        (by omega)
      have hrec := ih (c.put p.1 p.2) k (m + 1) hstep (by rw [cap_put]; omega)
      rw [putAll_cons]
      have heq : m + 1 + ps.length = m + (p :: ps).length := by
        rw [List.length_cons]; omega
      exact ⟨hrec.choose, heq ▸ hrec.choose_spec⟩

/-- Every key put by a sequence of `put`s that fits inside the capacity is
present afterwards. -/
theorem mem_keys_putAll :
    ∀ (ps : List (K × V)) (c : Lru K V) (k : K),
      k ∈ ps.map Prod.fst → ps.length ≤ c.cap → k ∈ (putAll c ps).keys := by
  intro ps
  induction ps with
  | nil => intro c k h _; simp at h
  | cons p ps ih =>
    intro c k h hcap
    rw [List.length_cons] at hcap
    by_cases hk : k ∈ ps.map Prod.fst
    · rw [putAll_cons]
      exact ih (c.put p.1 p.2) k hk (by rw [cap_put]; omega)
    · have hkp : p.1 = k := by
        simp only [List.map_cons, List.mem_cons] at h
        rcases h with h | h
        · exact h.symm
        · exact absurd h hk
      have hcap1 : 1 ≤ c.cap := by omega
      have hfront : ∃ w, (k, w) ∈ (c.put p.1 p.2).entries.take 1 := by
        subst hkp; exact mem_take_one_put p.1 p.2 hcap1
      have hsurv := mem_take_putAll ps (c.put p.1 p.2) k 1 hfront
        (by rw [cap_put]; omega)
      rw [putAll_cons, mem_keys_iff]
      exact ⟨hsurv.choose, List.take_subset _ _ hsurv.choose_spec⟩

/-- Putting a list of fresh, pairwise-distinct keys lays the list down in
reverse order in front of the old entries, truncated at capacity. -/
theorem putAll_fresh :
    ∀ (ps : List (K × V)) (c : Lru K V),
      (∀ k ∈ ps.map Prod.fst, k ∉ c.keys) → (ps.map Prod.fst).Nodup →
      c.entries.length ≤ c.cap →
      (putAll c ps).entries = (ps.reverse ++ c.entries).take c.cap := by
  intro ps
  induction ps with
  | nil =>
    intro c _ _ hlen
    simp [List.take_of_length_le hlen]
  | cons p ps ih =>
    intro c hfresh hnodup hlen
    have hnd := hnodup
    rw [List.map_cons] at hnd
    obtain ⟨hnd1, hnd2⟩ := List.nodup_cons.mp hnd
    have hp1 : p.1 ∉ c.keys := hfresh p.1 (by simp)
    have hfilter : c.entries.filter (fun q => !(q.1 == p.1)) = c.entries := by
      apply List.filter_eq_self.mpr
      intro q hq
      have : q.1 ∈ c.keys := List.mem_map.mpr ⟨q, hq, rfl⟩
      simp only [bne_iff_ne, ne_eq, Bool.not_eq_eq_eq_not, Bool.not_true, beq_eq_false_iff_ne]
      intro hqe
      exact hp1 (hqe ▸ this)
    have hent : (c.put p.1 p.2).entries = ((p.1, p.2) :: c.entries).take c.cap := by
      show ((p.1, p.2) :: c.entries.filter (fun q => !(q.1 == p.1))).take c.cap
          = ((p.1, p.2) :: c.entries).take c.cap
      rw [hfilter]
    have hfresh' : ∀ k ∈ ps.map Prod.fst, k ∉ (c.put p.1 p.2).keys := by
      intro k hk hmem
      obtain ⟨v, hv⟩ := (mem_keys_iff _ _).mp hmem
      rw [hent] at hv
      have hv' := List.take_subset _ _ hv
      simp only [List.mem_cons] at hv'
      rcases hv' with hv' | hv'
      · have hkp : k = p.1 := congrArg Prod.fst hv'
        exact hnd1 (hkp ▸ hk)
      · exact hfresh k (by simp [hk]) ((mem_keys_iff _ _).mpr ⟨v, hv'⟩)
    have hlen' : (c.put p.1 p.2).entries.length ≤ (c.put p.1 p.2).cap := by
      rw [cap_put, hent]
      exact List.length_take_le _ _
    have := ih (c.put p.1 p.2) hfresh' hnd2 hlen'
    rw [putAll_cons, this, cap_put, hent]
    rw [show ((p :: ps).reverse : List (K × V)) = ps.reverse ++ [p] by simp]
    have htat : ∀ (A B : List (K × V)) (n : Nat), (A ++ B.take n).take n = (A ++ B).take n := by
      intro A B n
      rw [List.take_append_eq_append_take, List.take_append_eq_append_take,
        List.take_take, Nat.min_eq_left (Nat.sub_le n A.length)]
    have : ps.reverse ++ (p.1, p.2) :: c.entries = (ps.reverse ++ [p]) ++ c.entries := by
      simp
    rw [htat, this]

end Lru

/-! ## Data model (the twilight entity types as used by `src/cache.rs`) -/

/-- `twilight_model::user::User` (the fields the cache reads). -/
structure User where
  id : Nat
  name : String
  discriminator : Nat
  avatar : Option Nat
  bot : Bool
deriving DecidableEq

/-- `twilight_model::guild::PartialMember` (the fields the cache reads). -/
structure PartialMember where
  nick : Option String
  roles : List Nat
deriving DecidableEq

/-- `twilight_model::channel::message::Mention` (the fields the cache reads). -/
structure Mention where
  id : Nat
  name : String
  discriminator : Nat
  avatar : Option Nat
  bot : Bool
  member : Option PartialMember
deriving DecidableEq

/-- `twilight_model::guild::Member` (the fields the cache reads). -/
structure Member where
  user : User
  nick : Option String
  roles : List Nat
deriving DecidableEq

/-- `twilight_model::gateway::payload::incoming::MemberUpdate` (fields read). -/
structure MemberUpdate where
  guild_id : Nat
  user : User
  nick : Option String
  roles : List Nat
deriving DecidableEq

/-- `twilight_model::guild::Role` (the fields the cache reads). -/
structure Role where
  id : Nat
  name : String
  color : Nat
  position : Int
  permissions : Nat
deriving DecidableEq

/-- `twilight_model::channel::ChannelType` (a representative set of variants). -/
inductive ChannelType where
  | GuildText
  | GuildVoice
  | GuildCategory
  | Private
deriving DecidableEq

/-- `twilight_model::channel::Channel` (the fields the cache reads). -/
structure Channel where
  id : Nat
  name : Option String
  kind : ChannelType
deriving DecidableEq

/-- `twilight_model::guild::Guild` (the fields the cache reads). -/
structure Guild where
  id : Nat
  name : String
  icon : Option Nat
  owner_id : Nat
  roles : List Role
  channels : List Channel
deriving DecidableEq

/-- `twilight_model::guild::PartialGuild` (the fields the cache reads). -/
structure PartialGuild where
  id : Nat
  name : String
  icon : Option Nat
  owner_id : Nat
  roles : List Role
deriving DecidableEq

/-- `twilight_model::channel::message::MessageType` (regular, reply, rest). -/
inductive MessageType where
  | Regular
  | Reply
  | Other
deriving DecidableEq

/-- `twilight_model::channel::Message` (the fields the cache reads). -/
structure Message where
  id : Nat
  channel_id : Nat
  guild_id : Option Nat
  author : User
  member : Option PartialMember
  mentions : List Mention
  kind : MessageType
deriving DecidableEq

/-- `twilight_model::gateway::payload::incoming::MessageUpdate` (fields read). -/
structure MessageUpdate where
  id : Nat
  channel_id : Nat
  guild_id : Option Nat
  author : Option User
  kind : Option MessageType
  mentions : Option (List Mention)
deriving DecidableEq

/-- A gateway reaction (`ReactionAdd` payload: the fields the system reads). -/
structure Reaction where
  user_id : Nat
  channel_id : Nat
  message_id : Nat
  guild_id : Option Nat
  member : Option Member
deriving DecidableEq

/-- `MemberAdd` payload: a member plus its guild id. -/
structure MemberAddPayload where
  guild_id : Nat
  member : Member
deriving DecidableEq

/-- `MemberChunk` payload: a guild id plus a list of members. -/
structure MemberChunkPayload where
  guild_id : Nat
  members : List Member
deriving DecidableEq

/-- `RoleCreate` / `RoleUpdate` payload: a guild id plus the role. -/
structure RolePayload where
  guild_id : Nat
  role : Role
deriving DecidableEq

/-- `GuildDelete` payload: the deleted guild's id. -/
structure GuildDeletePayload where
  id : Nat
deriving DecidableEq

/-- The gateway events `Cache::update` dispatches on (`Other` stands for every
event kind the cache does not use). -/
inductive Event where
  | ChannelCreate (channel : Channel)
  | ChannelUpdate (channel : Channel)
  | ChannelDelete (channel : Channel)
  | GuildCreate (guild : Guild)
  | GuildUpdate (guild : PartialGuild)
  | GuildDelete (guild : GuildDeletePayload)
  | MemberAdd (member : MemberAddPayload)
  | MemberUpdate (member : MemberUpdate)
  | MemberChunk (chunk : MemberChunkPayload)
  | MessageCreate (message : Message)
  | MessageUpdate (message : MessageUpdate)
  | ReactionAdd (reaction : Reaction)
  | RoleCreate (role : RolePayload)
  | RoleUpdate (role : RolePayload)
  | Other
deriving DecidableEq

/-! ## Cached records (`src/cache.rs` lines 22-175) -/

/-- `CachedUser`. -/
structure CachedUser where
  id : Nat
  name : String
  discriminator : Nat
  avatar : Option Nat
  bot : Bool
deriving DecidableEq

/-- `impl From<&User> for CachedUser`. -/
def CachedUser.from_user (user : User) : CachedUser :=
  { id := user.id, name := user.name, discriminator := user.discriminator,
    avatar := user.avatar, bot := user.bot }

/-- `impl From<&Mention> for CachedUser`. -/
def CachedUser.from_mention (mention : Mention) : CachedUser :=
  { id := mention.id, name := mention.name, discriminator := mention.discriminator,
    avatar := mention.avatar, bot := mention.bot }

/-- `CachedGuild`. -/
structure CachedGuild where
  id : Nat
  name : String
  icon : Option Nat
  roles : List Nat
  owner_id : Nat
deriving DecidableEq

/-- `impl From<&PartialGuild> for CachedGuild`. -/
def CachedGuild.from_partial_guild (guild : PartialGuild) : CachedGuild :=
  { id := guild.id, name := guild.name, icon := guild.icon,
    roles := guild.roles.map Role.id, owner_id := guild.owner_id }

/-- `impl From<&Guild> for CachedGuild`. -/
def CachedGuild.from_guild (guild : Guild) : CachedGuild :=
  { id := guild.id, name := guild.name, icon := guild.icon,
    roles := guild.roles.map Role.id, owner_id := guild.owner_id }

/-- `CachedRole`. -/
structure CachedRole where
  id : Nat
  name : String
  color : Nat
  position : Int
  permissions : Nat
deriving DecidableEq

/-- `impl From<&Role> for CachedRole`. -/
def CachedRole.from_role (role : Role) : CachedRole :=
  { id := role.id, name := role.name, color := role.color,
    position := role.position, permissions := role.permissions }

/-- `CachedMember`. -/
structure CachedMember where
  nick : Option String
  roles : List Nat
deriving DecidableEq

/-- `impl From<&PartialMember> for CachedMember`. -/
def CachedMember.from_partial (member : PartialMember) : CachedMember :=
  { nick := member.nick, roles := member.roles }

/-- `impl From<&Member> for CachedMember`. -/
def CachedMember.from_member (member : Member) : CachedMember :=
  { nick := member.nick, roles := member.roles }

/-- `impl From<&MemberUpdate> for CachedMember`. -/
def CachedMember.from_member_update (member : MemberUpdate) : CachedMember :=
  { nick := member.nick, roles := member.roles }

/-- The `Debug` name of a channel kind, used for the synthesized fallback name. -/
def ChannelType.debugName : ChannelType → String
  | .GuildText => "GuildText"
  | .GuildVoice => "GuildVoice"
  | .GuildCategory => "GuildCategory"
  | .Private => "Private"

/-- `CachedChannel`. -/
structure CachedChannel where
  id : Nat
  name : String
  kind : ChannelType
deriving DecidableEq

/-- `impl From<&Channel> for CachedChannel` (name falls back to
`"<kind>:<id>"` when the remote name is absent). -/
def CachedChannel.from_channel (channel : Channel) : CachedChannel :=
  { id := channel.id,
    name := match channel.name with
      | some name => name
      | none => channel.kind.debugName ++ ":" ++ toString channel.id,
    kind := channel.kind }

/-- `CachedMessage`. -/
structure CachedMessage where
  author_id : Nat
  kind : MessageType
deriving DecidableEq

/-- `impl From<&Message> for CachedMessage`. -/
def CachedMessage.from_message (message : Message) : CachedMessage :=
  { author_id := message.author.id, kind := message.kind }

/-! ## The cache (`src/cache.rs` lines 182-559) -/

/-- The cache's error kinds: the remote call failed, or the entity was absent
remotely as well (`context("role does not exist")`). -/
inductive CacheErr where
  | remote
  | notFound
deriving DecidableEq

/-- The outbound `twilight_http::Client`, as an oracle: what each remote
endpoint would return (`none` models a failed call). -/
structure Http where
  user : Nat → Option User
  guild : Nat → Option Guild
  roles : Nat → Option (List Role)
  member : Nat → Nat → Option Member
  channel : Nat → Option Channel
  message : Nat → Nat → Option Message

/-- `struct Cache`: one LRU table per entity type plus the HTTP client. -/
structure Cache where
  http : Http
  users : Lru Nat CachedUser
  guilds : Lru Nat CachedGuild
  roles : Lru Nat CachedRole
  members : Lru (Nat × Nat) CachedMember
  channels : Lru Nat CachedChannel
  messages : Lru Nat CachedMessage

/-- The result of a `get_*` call: the returned value or error, the cache
afterwards, and how many remote fetches were issued. -/
structure Fetched (A : Type) where
  result : Except CacheErr A
  cache : Cache
  fetches : Nat

namespace Cache

/-- `Cache::new`: every table gets the same fixed capacity of 5000. -/
def new (http : Http) : Cache :=
  { http := http
    users := ⟨5000, []⟩
    guilds := ⟨5000, []⟩
    roles := ⟨5000, []⟩
    members := ⟨5000, []⟩
    channels := ⟨5000, []⟩
    messages := ⟨5000, []⟩ }

/-- `Cache::put_user`. -/
def put_user (c : Cache) (user : User) : Cache :=
  { c with users := c.users.put user.id (CachedUser.from_user user) }

/-- `Cache::put_user_mention`. -/
def put_user_mention (c : Cache) (mention : Mention) : Cache :=
  { c with users := c.users.put mention.id (CachedUser.from_mention mention) }

/-- `Cache::get_user`: on hit return the cached copy (zero fetches); on miss
issue one remote fetch, store and return the result. -/
def get_user (c : Cache) (user_id : Nat) : Fetched CachedUser :=
  match c.users.get user_id with
  | (some cached_user, users') => ⟨.ok cached_user, { c with users := users' }, 0⟩
  | (none, _) =>
    match c.http.user user_id with
    | some user => ⟨.ok (CachedUser.from_user user), c.put_user user, 1⟩
    | none => ⟨.error .remote, c, 1⟩

/-- `Cache::put_role`. -/
def put_role (c : Cache) (role : Role) : Cache :=
  { c with roles := c.roles.put role.id (CachedRole.from_role role) }

/-- `Cache::put_guild` (also puts every role of the guild). -/
def put_guild (c : Cache) (guild : PartialGuild) : Cache :=
  let c := guild.roles.foldl put_role c
  { c with guilds := c.guilds.put guild.id (CachedGuild.from_partial_guild guild) }

/-- `Cache::put_channel`. -/
def put_channel (c : Cache) (channel : Channel) : Cache :=
  { c with channels := c.channels.put channel.id (CachedChannel.from_channel channel) }

/-- `Cache::put_full_guild` (also puts every channel and role of the guild). -/
def put_full_guild (c : Cache) (guild : Guild) : Cache :=
  let c := guild.channels.foldl put_channel c
  let c := guild.roles.foldl put_role c
  { c with guilds := c.guilds.put guild.id (CachedGuild.from_guild guild) }

/-- `Cache::get_guild`. -/
def get_guild (c : Cache) (guild_id : Nat) : Fetched CachedGuild :=
  match c.guilds.get guild_id with
  | (some cached_guild, guilds') => ⟨.ok cached_guild, { c with guilds := guilds' }, 0⟩
  | (none, _) =>
    match c.http.guild guild_id with
    | some guild => ⟨.ok (CachedGuild.from_guild guild), c.put_full_guild guild, 1⟩
    | none => ⟨.error .remote, c, 1⟩

/-- `Cache::get_role`: a miss fetches the guild's whole role list, stores every
role, then selects the requested one. -/
def get_role (c : Cache) (guild_id role_id : Nat) : Fetched CachedRole :=
  match c.roles.get role_id with
  | (some cached_role, roles') => ⟨.ok cached_role, { c with roles := roles' }, 0⟩
  | (none, _) =>
    match c.http.roles guild_id with
    | some roles =>
      let c := roles.foldl put_role c
      match roles.find? (fun role => role.id == role_id) with
      | some role => ⟨.ok (CachedRole.from_role role), c, 1⟩
      | none => ⟨.error .notFound, c, 1⟩
    | none => ⟨.error .remote, c, 1⟩

/-- `Cache::put_member`. -/
def put_member (c : Cache) (guild_id user_id : Nat) (member : PartialMember) : Cache :=
  { c with members := c.members.put (guild_id, user_id) (CachedMember.from_partial member) }

/-- `Cache::put_full_member` (also puts the member's embedded user). -/
def put_full_member (c : Cache) (guild_id : Nat) (member : Member) : Cache :=
  let c := c.put_user member.user
  { c with members := c.members.put (guild_id, member.user.id) (CachedMember.from_member member) }

/-- `Cache::put_member_update` (also puts the member's embedded user). -/
def put_member_update (c : Cache) (member : MemberUpdate) : Cache :=
  let c := c.put_user member.user
  { c with members :=
      c.members.put (member.guild_id, member.user.id) (CachedMember.from_member_update member) }

/-- `Cache::get_member`. -/
def get_member (c : Cache) (guild_id user_id : Nat) : Fetched CachedMember :=
  match c.members.get (guild_id, user_id) with
  | (some cached_member, members') => ⟨.ok cached_member, { c with members := members' }, 0⟩
  | (none, _) =>
    match c.http.member guild_id user_id with
    | some member => ⟨.ok (CachedMember.from_member member), c.put_full_member guild_id member, 1⟩
    | none => ⟨.error .remote, c, 1⟩

/-- `Cache::get_channel`. -/
def get_channel (c : Cache) (channel_id : Nat) : Fetched CachedChannel :=
  match c.channels.get channel_id with
  | (some cached_channel, channels') => ⟨.ok cached_channel, { c with channels := channels' }, 0⟩
  | (none, _) =>
    match c.http.channel channel_id with
    | some channel => ⟨.ok (CachedChannel.from_channel channel), c.put_channel channel, 1⟩
    | none => ⟨.error .remote, c, 1⟩

/-- The per-mention body of `Cache::put_message`'s loop: put the mentioned
user, and its member record when the message has a guild id and the mention
carries a member snippet. -/
def mention_step (guild_id? : Option Nat) (c : Cache) (mention : Mention) : Cache :=
  let c := c.put_user_mention mention
  match guild_id?, mention.member with
  | some guild_id, some member => c.put_member guild_id mention.id member
  | _, _ => c

/-- The mention loop shared by `put_message` and `put_message_update`. -/
def mention_loop (guild_id? : Option Nat) (mentions : List Mention) (c : Cache) : Cache :=
  mentions.foldl (mention_step guild_id?) c

/-- `Cache::put_message`: backfill the author's user (and member) record and
every mention's user (and member) record, then store the message projection. -/
def put_message (c : Cache) (message : Message) : Cache :=
  let c := c.put_user message.author
  let c := match message.guild_id, message.member with
    | some guild_id, some member => c.put_member guild_id message.author.id member
    | _, _ => c
  let c := mention_loop message.guild_id message.mentions c
  { c with messages := c.messages.put message.id (CachedMessage.from_message message) }

/-- `Cache::put_message_update`: merge available author/mention fields, and
update the stored message only when both author and kind are present. -/
def put_message_update (c : Cache) (message : MessageUpdate) : Cache :=
  let c := match message.author with
    | some author => c.put_user author
    | none => c
  let c := match message.mentions with
    | some mentions => mention_loop message.guild_id mentions c
    | none => c
  match message.author, message.kind with
  | some author, some kind =>
    { c with messages := c.messages.put message.id ⟨author.id, kind⟩ }
  | _, _ => c

/-- `Cache::get_message`. -/
def get_message (c : Cache) (channel_id message_id : Nat) : Fetched CachedMessage :=
  match c.messages.get message_id with
  | (some cached_message, messages') => ⟨.ok cached_message, { c with messages := messages' }, 0⟩
  | (none, _) =>
    match c.http.message channel_id message_id with
    | some message => ⟨.ok (CachedMessage.from_message message), c.put_message message, 1⟩
    | none => ⟨.error .remote, c, 1⟩

/-- `Cache::update` (`src/cache.rs` lines 263-289): the event write path.
Channel/guild deletion and every other unlisted event kind fall through to
the final no-op arm. -/
def update (c : Cache) (event : Event) : Cache :=
  match event with
  | .ChannelCreate channel => c.put_channel channel
  | .ChannelUpdate channel => c.put_channel channel
  | .GuildCreate guild => c.put_full_guild guild
  | .GuildUpdate guild => c.put_guild guild
  | .MemberAdd member => c.put_full_member member.guild_id member.member
  | .MemberUpdate member => c.put_member_update member
  | .MemberChunk chunk => chunk.members.foldl (fun c m => c.put_full_member chunk.guild_id m) c
  | .MessageCreate message => c.put_message message
  | .MessageUpdate message => c.put_message_update message
  | .ReactionAdd reaction =>
    match reaction.guild_id, reaction.member with
    | some guild_id, some member => c.put_full_member guild_id member
    | _, _ => c
  | .RoleCreate role => c.put_role role.role
  | .RoleUpdate role => c.put_role role.role
  | _ => c

end Cache

/-! ## Interaction extraction

The interaction extractor lives in the module `social::inference`, declared in
`src/social/mod.rs` (`pub mod inference;`) and called there as
`Interaction::new_from_message(message, referenced_message.as_ref())?` and
`Interaction::new_from_reaction(reaction, &message)?`; the module's source
file is not part of the snapshot, so the two constructors are modelled from
the specification. -/

/-- The two interaction kinds. -/
inductive InteractionType where
  | Message
  | Reaction
deriving DecidableEq

/-- The extractor's failure: the event lacked guild context. -/
inductive InferenceError where
  | MissingGuildContext
deriving DecidableEq

/-- A normalized interaction: kind, source user, target users, channel, guild. -/
structure Interaction where
  what : InteractionType
  source : Nat
  targets : List Nat
  channel : Nat
  guild : Nat
deriving DecidableEq

/-- Modelled from the spec: `Interaction::new_from_message` of the missing
`src/social/inference.rs`. Source is the author id; targets are the mentioned
user ids plus, when the message is a reply (a referenced message was resolved
by the caller), the referenced message's author id; fails with
`MissingGuildContext` when the message has no guild id. -/
def Interaction.new_from_message (message : Message)
    (referenced_message : Option CachedMessage) : Except InferenceError Interaction :=
  match message.guild_id with
  | none => .error .MissingGuildContext
  | some guild_id =>
    .ok { what := .Message
          source := message.author.id
          targets := message.mentions.map Mention.id ++
            (match referenced_message with
             | some referenced => [referenced.author_id]
             | none => [])
          channel := message.channel_id
          guild := guild_id }

/-- Modelled from the spec: `Interaction::new_from_reaction` of the missing
`src/social/inference.rs`. Source is the reacting user's id; the single
target is the reacted-to message's author; fails with `MissingGuildContext`
when the reaction has no guild id. -/
def Interaction.new_from_reaction (reaction : Reaction)
    (target_message : CachedMessage) : Except InferenceError Interaction :=
  match reaction.guild_id with
  | none => .error .MissingGuildContext
  | some guild_id =>
    .ok { what := .Reaction
          source := reaction.user_id
          targets := [target_message.author_id]
          channel := reaction.channel_id
          guild := guild_id }

/-! ## Command dispatch (`src/commands.rs` lines 50-68)

The five recognized commands dispatch to their handlers; a handler failure is
reported to the invoking channel with one fixed generic message. Handlers do
remote I/O, so their outcomes are parameters of the model. -/

/-- A message the dispatcher sends to a channel. -/
structure SentMessage where
  channel_id : Nat
  content : String
deriving DecidableEq

/-- The fixed failure reply of `handle_message`. -/
def genericFailureText : String := "Sorry, there was an error handling that command"

/-- The `match command.name` dispatch of `handle_message`: five recognized
command words run a handler, anything else is `Ok(())`. `handlers` gives each
handler's outcome (its error carries the underlying error text). -/
def dispatchCommand (handlers : String → Except String Unit) (name : String) :
    Except String Unit :=
  match name with
  | "help" => handlers "help"
  | "invite" => handlers "help"
  | "graph" => handlers "graph"
  | "stats" => handlers "stats"
  | "dump" => handlers "dump"
  | _ => .ok ()

/-- Whether a command word is in the dispatcher's table. -/
def recognizedCommand (name : String) : Bool :=
  name == "help" || name == "invite" || name == "graph" || name == "stats" || name == "dump"

/-- The `if let Err(error) = result` tail of `handle_message`: on failure send
the single generic reply to the invoking channel, otherwise send nothing. -/
def reportCommandResult (channel_id : Nat) (result : Except String Unit) :
    List SentMessage :=
  match result with
  | .ok _ => []
  | .error _ => [⟨channel_id, genericFailureText⟩]

/-- `handle_message` from the dispatch on the parsed command word onwards:
the messages the dispatcher itself sends to the invoking channel. -/
def handle_message (handlers : String → Except String Unit) (channel_id : Nat)
    (name : String) : List SentMessage :=
  reportCommandResult channel_id (dispatchCommand handlers name)

/-! ## Projection lemmas: which table each write path touches -/

/-- The user-table writes performed for a list of mentions, oldest first. -/
def mention_user_puts (mentions : List Mention) : List (Nat × CachedUser) :=
  mentions.map (fun m => (m.id, CachedUser.from_mention m))

/-- The member-table writes performed for a list of mentions, oldest first. -/
def mention_member_puts (guild_id? : Option Nat) (mentions : List Mention) :
    List ((Nat × Nat) × CachedMember) :=
  mentions.filterMap (fun m =>
    match guild_id?, m.member with
    | some guild_id, some member => some ((guild_id, m.id), CachedMember.from_partial member)
    | _, _ => none)

/-- The user-table writes of `put_message`, oldest first. -/
def message_user_puts (message : Message) : List (Nat × CachedUser) :=
  (message.author.id, CachedUser.from_user message.author) :: mention_user_puts message.mentions

/-- The member-table writes of `put_message`, oldest first. -/
def message_member_puts (message : Message) : List ((Nat × Nat) × CachedMember) :=
  (match message.guild_id, message.member with
   | some guild_id, some member =>
     [((guild_id, message.author.id), CachedMember.from_partial member)]
   | _, _ => []) ++ mention_member_puts message.guild_id message.mentions

/-- The user-table writes of `put_message_update`, oldest first. -/
def message_update_user_puts (message : MessageUpdate) : List (Nat × CachedUser) :=
  (match message.author with
   | some author => [(author.id, CachedUser.from_user author)]
   | none => []) ++
  (match message.mentions with
   | some mentions => mention_user_puts mentions
   | none => [])

/-- The member-table writes of `put_message_update`, oldest first. -/
def message_update_member_puts (message : MessageUpdate) : List ((Nat × Nat) × CachedMember) :=
  match message.mentions with
  | some mentions => mention_member_puts message.guild_id mentions
  | none => []

namespace Cache

theorem mention_step_users (guild_id? : Option Nat) (c : Cache) (m : Mention) :
    (mention_step guild_id? c m).users = c.users.put m.id (CachedUser.from_mention m) := by
  cases guild_id? <;> cases hm : m.member <;>
    simp [mention_step, put_user_mention, put_member, hm]

theorem mention_step_members (guild_id? : Option Nat) (c : Cache) (m : Mention) :
    (mention_step guild_id? c m).members =
      match guild_id?, m.member with
      | some guild_id, some member =>
        c.members.put (guild_id, m.id) (CachedMember.from_partial member)
      | _, _ => c.members := by
  cases guild_id? <;> cases hm : m.member <;>
    simp [mention_step, put_user_mention, put_member, hm]

theorem mention_step_rest (guild_id? : Option Nat) (c : Cache) (m : Mention) :
    (mention_step guild_id? c m).messages = c.messages ∧
    (mention_step guild_id? c m).channels = c.channels ∧
    (mention_step guild_id? c m).guilds = c.guilds ∧
    (mention_step guild_id? c m).roles = c.roles ∧
    (mention_step guild_id? c m).http = c.http := by
  cases guild_id? <;> cases hm : m.member <;>
    simp [mention_step, put_user_mention, put_member, hm]

theorem mention_loop_users (guild_id? : Option Nat) :
    ∀ (mentions : List Mention) (c : Cache),
      (mention_loop guild_id? mentions c).users =
        Lru.putAll c.users (mention_user_puts mentions) := by
  intro mentions
  induction mentions with
  | nil => intro c; rfl
  | cons m mentions ih =>
    intro c
    show (mention_loop guild_id? mentions (mention_step guild_id? c m)).users = _
    rw [ih, mention_step_users]
    rfl

theorem mention_loop_members (guild_id? : Option Nat) :
    ∀ (mentions : List Mention) (c : Cache),
      (mention_loop guild_id? mentions c).members =
        Lru.putAll c.members (mention_member_puts guild_id? mentions) := by
  intro mentions
  induction mentions with
  | nil => intro c; rfl
  | cons m mentions ih =>
    intro c
    show (mention_loop guild_id? mentions (mention_step guild_id? c m)).members = _
    rw [ih, mention_step_members]
    cases hg : guild_id? <;> cases hm : m.member <;>
      simp [mention_member_puts, List.filterMap_cons, hg, hm]

theorem mention_loop_rest (guild_id? : Option Nat) :
    ∀ (mentions : List Mention) (c : Cache),
      (mention_loop guild_id? mentions c).messages = c.messages ∧
      (mention_loop guild_id? mentions c).channels = c.channels ∧
      (mention_loop guild_id? mentions c).guilds = c.guilds ∧
      (mention_loop guild_id? mentions c).roles = c.roles ∧
      (mention_loop guild_id? mentions c).http = c.http := by
  intro mentions
  induction mentions with
  | nil => intro c; exact ⟨rfl, rfl, rfl, rfl, rfl⟩
  | cons m mentions ih =>
    intro c
    have hstep := mention_step_rest guild_id? c m
    have hrec := ih (mention_step guild_id? c m)
    exact ⟨hrec.1.trans hstep.1, hrec.2.1.trans hstep.2.1, hrec.2.2.1.trans hstep.2.2.1,
      hrec.2.2.2.1.trans hstep.2.2.2.1, hrec.2.2.2.2.trans hstep.2.2.2.2⟩


theorem mention_loop_messages (guild_id? : Option Nat) (mentions : List Mention) (c : Cache) :
    (mention_loop guild_id? mentions c).messages = c.messages :=
  (mention_loop_rest guild_id? mentions c).1

theorem put_message_users (c : Cache) (message : Message) :
    (c.put_message message).users = Lru.putAll c.users (message_user_puts message) := by
  unfold put_message
  cases hg : message.guild_id <;> cases hm : message.member <;>
    simp [mention_loop_users, put_user, put_member, message_user_puts, hg, hm]

theorem put_message_members (c : Cache) (message : Message) :
    (c.put_message message).members = Lru.putAll c.members (message_member_puts message) := by
  unfold put_message
  cases hg : message.guild_id <;> cases hm : message.member <;>
    simp [mention_loop_members, put_user, put_member, message_member_puts, hg, hm]

theorem put_message_messages (c : Cache) (message : Message) :
    (c.put_message message).messages =
      c.messages.put message.id (CachedMessage.from_message message) := by
  unfold put_message
  cases hg : message.guild_id <;> cases hm : message.member <;>
    simp [mention_loop_messages, put_user, put_member, hg, hm]

theorem put_message_update_users (c : Cache) (message : MessageUpdate) :
    (c.put_message_update message).users =
      Lru.putAll c.users (message_update_user_puts message) := by
  unfold put_message_update
  cases ha : message.author <;> cases hk : message.kind <;> cases hm : message.mentions <;>
    simp [mention_loop_users, put_user, message_update_user_puts, ha, hk, hm]

theorem put_message_update_members (c : Cache) (message : MessageUpdate) :
    (c.put_message_update message).members =
      Lru.putAll c.members (message_update_member_puts message) := by
  unfold put_message_update
  cases ha : message.author <;> cases hk : message.kind <;> cases hm : message.mentions <;>
    simp [mention_loop_members, put_user, message_update_member_puts, ha, hk, hm]

theorem put_message_update_messages_written (c : Cache) (message : MessageUpdate)
    (author : User) (kind : MessageType)
    (ha : message.author = some author) (hk : message.kind = some kind) :
    (c.put_message_update message).messages =
      c.messages.put message.id ⟨author.id, kind⟩ := by
  unfold put_message_update
  cases hm : message.mentions <;>
    simp [mention_loop_messages, put_user, ha, hk, hm]

theorem put_message_update_messages_unchanged (c : Cache) (message : MessageUpdate)
    (h : message.author = none ∨ message.kind = none) :
    (c.put_message_update message).messages = c.messages := by
  unfold put_message_update
  rcases h with h | h <;>
    cases ha : message.author <;> cases hk : message.kind <;> cases hm : message.mentions <;>
      simp_all [mention_loop_messages, put_user]

end Cache

/-! ## Lookup-path lemmas -/

namespace Lru

variable {K V : Type} [DecidableEq K]

/-- Looking up a present key returns its first stored value and promotes it. -/
theorem get_of_mem {c : Lru K V} {k : K} (h : k ∈ c.keys) :
    ∃ v, c.get k =
      (some v, { c with entries := (k, v) :: c.entries.filter (fun p => !(p.1 == k)) }) := by
  obtain ⟨v₀, hv₀⟩ := (mem_keys_iff c k).mp h
  cases hfind : c.entries.find? (fun p => p.1 == k) with
  | none =>
    have := List.find?_eq_none.mp hfind (k, v₀) hv₀
    simp at this
  | some p =>
    obtain ⟨k₁, v₁⟩ := p
    refine ⟨v₁, ?_⟩
    have hk₁ : k₁ = k := by
      have := List.find?_some hfind
      simpa using this
    subst hk₁
    simp [get, hfind]

/-- Looking up an absent key returns nothing and leaves the table unchanged. -/
theorem get_of_not_mem {c : Lru K V} {k : K} (h : k ∉ c.keys) :
    c.get k = (none, c) := by
  cases hfind : c.entries.find? (fun p => p.1 == k) with
  | none => simp [get, hfind]
  | some p =>
    exfalso
    have hmem := List.mem_of_find?_eq_some hfind
    have hpk : p.1 = k := by
      have := List.find?_some hfind
      simpa using this
    exact h ((mem_keys_iff c k).mpr ⟨p.2, by rw [← hpk]; exact hmem⟩)

/-- A key just `put` is found by the next lookup (capacity permitting). -/
theorem get_put_self (c : Lru K V) (k : K) (v : V) (hcap : 1 ≤ c.cap) :
    ((c.put k v).get k).1 = some v := by
  obtain ⟨n, hn⟩ : ∃ n, c.cap = n + 1 := ⟨c.cap - 1, by omega⟩
  show ((⟨c.cap, ((k, v) :: c.entries.filter (fun p => !(p.1 == k))).take c.cap⟩ :
    Lru K V).get k).1 = some v
  rw [hn, List.take_succ_cons]
  simp [get, List.find?_cons]

/-- A fresh `put` on a full table: the new key goes in front and exactly the
last (least-recently-used) key drops out. -/
theorem put_fresh_full_keys {c : Lru K V} {k' : K} (v' : V)
    (hfresh : k' ∉ c.keys) (hfull : c.entries.length = c.cap) (hcap : 1 ≤ c.cap) :
    (c.put k' v').keys = k' :: c.keys.dropLast := by
  have hfilter : c.entries.filter (fun p => !(p.1 == k')) = c.entries := by
    apply List.filter_eq_self.mpr
    intro p hp
    have hpk : p.1 ∈ c.keys := List.mem_map.mpr ⟨p, hp, rfl⟩
    simp only [Bool.not_eq_eq_eq_not, Bool.not_true, beq_eq_false_iff_ne, ne_eq]
    intro he
    exact hfresh (he ▸ hpk)
  obtain ⟨n, hn⟩ : ∃ n, c.cap = n + 1 := ⟨c.cap - 1, by omega⟩
  show (((k', v') :: c.entries.filter (fun p => !(p.1 == k'))).take c.cap).map Prod.fst = _
  rw [hfilter, hn, List.take_succ_cons, List.map_cons, List.map_take]
  have hkeys_len : (c.entries.map Prod.fst).length = n + 1 := by
    rw [List.length_map, hfull, hn]
  show k' :: (c.keys).take n = k' :: c.keys.dropLast
  rw [List.dropLast_eq_take, show (c.keys).length = n + 1 from hkeys_len]
  norm_num

end Lru

namespace Cache

/-- `get_user` on a cached key: zero fetches, the cached copy is returned. -/
theorem get_user_hit (c : Cache) (k : Nat) (v : CachedUser) (users' : Lru Nat CachedUser)
    (h : c.users.get k = (some v, users')) :
    c.get_user k = ⟨.ok v, { c with users := users' }, 0⟩ := by
  simp [get_user, h]

/-- `get_user` on an absent key with a successful remote fetch: one fetch,
the fetched user is stored and returned. -/
theorem get_user_miss (c : Cache) (k : Nat) (u : User)
    (hmiss : k ∉ c.users.keys) (hfetch : c.http.user k = some u) :
    c.get_user k = ⟨.ok (CachedUser.from_user u), c.put_user u, 1⟩ := by
  simp [get_user, Lru.get_of_not_mem hmiss, hfetch]

end Cache

/-! ## Concrete fixtures used by witnesses and counterexamples -/

/-- An HTTP oracle whose every remote call fails (no remote data needed). -/
def httpNone : Http :=
  { user := fun _ => none, guild := fun _ => none, roles := fun _ => none,
    member := fun _ _ => none, channel := fun _ => none, message := fun _ _ => none }

/-- A non-text-capable (voice) channel. -/
def exVoiceChannel : Channel := { id := 9, name := some "voice-chat", kind := .GuildVoice }

/-- A text channel. -/
def exTextChannel : Channel := { id := 5, name := some "general", kind := .GuildText }

/-- A guild with no embedded channels or roles. -/
def exGuild : Guild :=
  { id := 11, name := "guild", icon := none, owner_id := 3, roles := [], channels := [] }

/-! ## Claim theorems -/

/-- C4: for every message with guild context, `new_from_message` produces an
interaction whose source is the message author's id and whose targets are the
mentioned user ids plus, when the message is a reply (a referenced message is
supplied), the referenced message's author id; for every reaction with guild
context, `new_from_reaction` produces an interaction whose source is the
reacting user's id and whose targets are exactly the reacted-to message's
author id. -/
theorem interaction_source_targets
    (message : Message) (referenced_message : Option CachedMessage)
    (reaction : Reaction) (target_message : CachedMessage) (g g' : Nat)
    (hg : message.guild_id = some g) (hg' : reaction.guild_id = some g') :
    (∃ i, Interaction.new_from_message message referenced_message = .ok i ∧
      i.what = .Message ∧
      i.source = message.author.id ∧
      i.targets = message.mentions.map Mention.id ++
        (match referenced_message with
         | some referenced => [referenced.author_id]
         | none => []) ∧
      i.channel = message.channel_id ∧ i.guild = g) ∧
    (∃ i, Interaction.new_from_reaction reaction target_message = .ok i ∧
      i.what = .Reaction ∧
      i.source = reaction.user_id ∧
      i.targets = [target_message.author_id] ∧
      i.channel = reaction.channel_id ∧ i.guild = g') := by
  constructor
  · refine ⟨⟨.Message, message.author.id,
      message.mentions.map Mention.id ++
        (match referenced_message with
         | some referenced => [referenced.author_id]
         | none => []),
      message.channel_id, g⟩, ?_, rfl, rfl, rfl, rfl, rfl⟩
    simp [Interaction.new_from_message, hg]
  · refine ⟨⟨.Reaction, reaction.user_id, [target_message.author_id],
      reaction.channel_id, g'⟩, ?_, rfl, rfl, rfl, rfl, rfl⟩
    simp [Interaction.new_from_reaction, hg']

/-- Witness for C4 at a concrete reply message and reaction. -/
theorem interaction_source_targets_witness :
    (∃ i, Interaction.new_from_message
        { id := 1, channel_id := 2, guild_id := some 3,
          author := { id := 4, name := "a", discriminator := 1, avatar := none, bot := false },
          member := none,
          mentions := [{ id := 6, name := "m", discriminator := 2, avatar := none,
                         bot := false, member := none }],
          kind := .Reply }
        (some { author_id := 8, kind := .Regular }) = .ok i ∧
      i.source = 4 ∧ i.targets = [6, 8]) ∧
    (∃ i, Interaction.new_from_reaction
        { user_id := 10, channel_id := 2, message_id := 1, guild_id := some 3, member := none }
        { author_id := 4, kind := .Regular } = .ok i ∧
      i.source = 10 ∧ i.targets = [4]) := by
  have h := interaction_source_targets
    { id := 1, channel_id := 2, guild_id := some 3,
      author := { id := 4, name := "a", discriminator := 1, avatar := none, bot := false },
      member := none,
      mentions := [{ id := 6, name := "m", discriminator := 2, avatar := none,
                     bot := false, member := none }],
      kind := .Reply }
    (some { author_id := 8, kind := .Regular })
    { user_id := 10, channel_id := 2, message_id := 1, guild_id := some 3, member := none }
    { author_id := 4, kind := .Regular }
    3 3 rfl rfl
  obtain ⟨⟨i₁, he₁, _, hs₁, ht₁, _⟩, ⟨i₂, he₂, _, hs₂, ht₂, _⟩⟩ := h
  exact ⟨⟨i₁, he₁, hs₁, by simpa using ht₁⟩, ⟨i₂, he₂, hs₂, ht₂⟩⟩

/-- C5: when the message (resp. reaction) carries no guild id, the extractor
returns the `MissingGuildContext` error to the caller. -/
theorem interaction_missing_guild_context
    (message : Message) (referenced_message : Option CachedMessage)
    (reaction : Reaction) (target_message : CachedMessage)
    (hg : message.guild_id = none) (hg' : reaction.guild_id = none) :
    Interaction.new_from_message message referenced_message =
      .error .MissingGuildContext ∧
    Interaction.new_from_reaction reaction target_message =
      .error .MissingGuildContext := by
  constructor
  · simp [Interaction.new_from_message, hg]
  · simp [Interaction.new_from_reaction, hg']

/-- Witness for C5 at a concrete direct message and reaction. -/
theorem interaction_missing_guild_context_witness :
    Interaction.new_from_message
      { id := 1, channel_id := 2, guild_id := none,
        author := { id := 4, name := "a", discriminator := 1, avatar := none, bot := false },
        member := none, mentions := [], kind := .Regular } none =
      .error .MissingGuildContext ∧
    Interaction.new_from_reaction
      { user_id := 10, channel_id := 2, message_id := 1, guild_id := none, member := none }
      { author_id := 4, kind := .Regular } =
      .error .MissingGuildContext :=
  interaction_missing_guild_context _ _ _ _ rfl rfl

/-- C6 counterexample: a `ChannelCreate` event for a *voice* channel is stored
by `Cache::update` (there is no text-capability filter in the cache), so the
channels table does change for a non-text-capable channel. -/
theorem update_stores_voice_channel_counterexample :
    9 ∈ ((Cache.new httpNone).update (.ChannelCreate exVoiceChannel)).channels.keys ∧
    9 ∉ (Cache.new httpNone).channels.keys := by
  decide

/-- C6 (amended): `Cache::update` stores every channel from a channel-create
or channel-update event in the channels table regardless of its kind, leaving
all other tables unchanged; the text-capability filter does not exist in the
cache layer. -/
theorem update_channel_unconditional (c : Cache) (channel : Channel) :
    ((c.update (.ChannelCreate channel)).channels =
        c.channels.put channel.id (CachedChannel.from_channel channel) ∧
      (c.update (.ChannelUpdate channel)).channels =
        c.channels.put channel.id (CachedChannel.from_channel channel)) ∧
    ((c.update (.ChannelCreate channel)).users = c.users ∧
      (c.update (.ChannelCreate channel)).guilds = c.guilds ∧
      (c.update (.ChannelCreate channel)).roles = c.roles ∧
      (c.update (.ChannelCreate channel)).members = c.members ∧
      (c.update (.ChannelCreate channel)).messages = c.messages) :=
  ⟨⟨rfl, rfl⟩, rfl, rfl, rfl, rfl, rfl⟩

/-- C7 counterexample: after a `ChannelDelete` (resp. `GuildDelete`) event the
supposedly removed entry is still present — `Cache::update` has no arm for
either event, so they fall through to the no-op arm. -/
theorem update_delete_noop_counterexample :
    5 ∈ (((Cache.new httpNone).update (.ChannelCreate exTextChannel)).update
        (.ChannelDelete exTextChannel)).channels.keys ∧
    11 ∈ (((Cache.new httpNone).update (.GuildCreate exGuild)).update
        (.GuildDelete ⟨11⟩)).guilds.keys := by
  decide

/-- C7 (amended): `Cache::update` ignores channel-delete and guild-delete
events entirely (they are unused by the cache and change no table); explicit
invalidation on deletion exists only in the social-graph layer, not in the
entity cache. -/
theorem update_delete_ignored (c : Cache) (channel : Channel) (guild : GuildDeletePayload) :
    c.update (.ChannelDelete channel) = c ∧ c.update (.GuildDelete guild) = c :=
  ⟨rfl, rfl⟩

/-- C9: whenever a recognized command's handler fails, the dispatcher sends
exactly one fixed generic failure message to the invoking channel, and the
underlying error's text does not appear in any message it sends (every sent
message is the fixed constant, which is independent of the error). -/
theorem command_failure_generic_reply (handlers : String → Except String Unit)
    (channel_id : Nat) (name e : String)
    (hrec : recognizedCommand name = true)
    (herr : dispatchCommand handlers name = .error e) :
    handle_message handlers channel_id name = [⟨channel_id, genericFailureText⟩] ∧
    ∀ m ∈ handle_message handlers channel_id name,
      m.content = genericFailureText ∧
      (¬ List.IsInfix e.data genericFailureText.data → ¬ List.IsInfix e.data m.content.data) := by
  unfold handle_message reportCommandResult
  rw [herr]
  refine ⟨rfl, ?_⟩
  intro m hm
  simp only [List.mem_singleton] at hm
  subst hm
  exact ⟨rfl, fun h => h⟩

/-- Witness for C9: a failing `stats` handler at a concrete channel. -/
theorem command_failure_generic_reply_witness :
    handle_message (fun _ => .error "boom") 7 "stats" = [⟨7, genericFailureText⟩] ∧
    ∀ m ∈ handle_message (fun _ => .error "boom") 7 "stats",
      m.content = genericFailureText ∧
      (¬ List.IsInfix "boom".data genericFailureText.data →
        ¬ List.IsInfix "boom".data m.content.data) :=
  command_failure_generic_reply (fun _ => .error "boom") 7 "stats" "boom" (by decide) rfl

namespace Cache

/-- `get_user` needs only the looked-up value to hit: zero fetches, cached
copy returned. -/
theorem get_user_of_fst (c : Cache) (k : Nat) (v : CachedUser)
    (h : (c.users.get k).1 = some v) :
    (c.get_user k).result = .ok v ∧ (c.get_user k).fetches = 0 := by
  cases hp : c.users.get k with
  | mk o users' =>
    rw [hp] at h
    cases o with
    | none => exact absurd h (by simp)
    | some w =>
      have hw : w = v := by simpa using h
      subst hw
      simp [get_user, hp]

/-- The role-table writes of a `put_role` fold. -/
theorem foldl_put_role_roles :
    ∀ (rs : List Role) (c : Cache),
      (rs.foldl put_role c).roles =
        Lru.putAll c.roles (rs.map (fun r => (r.id, CachedRole.from_role r))) := by
  intro rs
  induction rs with
  | nil => intro c; rfl
  | cons r rs ih =>
    intro c
    show (rs.foldl put_role (c.put_role r)).roles = _
    rw [ih]
    rfl

end Cache

/-- A remote oracle that serves a user for any id. -/
def exHttpUser : Http := { httpNone with user := fun k => some ⟨k, "u", 1, none, false⟩ }

/-- Two concrete roles and a remote oracle serving them as a guild role list. -/
def exRole20 : Role := ⟨20, "r20", 0, 0, 0⟩

def exRole21 : Role := ⟨21, "r21", 5, 1, 8⟩

def exHttpRoles : Http := { httpNone with roles := fun _ => some [exRole20, exRole21] }

/-- C2: `get_user` with the key cached returns the cached copy with zero
remote fetches; with the key absent it performs exactly one remote fetch,
stores the fetched user in the users table and returns it, so a second
`get_user` of the same key performs zero further fetches and returns an equal
value. -/
theorem get_user_fetch_through (c : Cache) (k : Nat) (u : User)
    (hmiss : k ∉ c.users.keys) (hfetch : c.http.user k = some u)
    (hid : u.id = k) (hcap : 1 ≤ c.users.cap) :
    (∀ (c₂ : Cache) (k₂ : Nat), k₂ ∈ c₂.users.keys →
      (c₂.get_user k₂).fetches = 0 ∧ ∃ v, (c₂.get_user k₂).result = .ok v) ∧
    (c.get_user k).fetches = 1 ∧
    (c.get_user k).result = .ok (CachedUser.from_user u) ∧
    (c.get_user k).cache.users = c.users.put k (CachedUser.from_user u) ∧
    ((c.get_user k).cache.get_user k).fetches = 0 ∧
    ((c.get_user k).cache.get_user k).result = .ok (CachedUser.from_user u) := by
  subst hid
  have hmissed := Cache.get_user_miss c u.id u hmiss hfetch
  have hsecond : (((c.get_user u.id).cache).users.get u.id).1 =
      some (CachedUser.from_user u) := by
    rw [hmissed]
    exact Lru.get_put_self c.users u.id (CachedUser.from_user u) hcap
  have hhit := Cache.get_user_of_fst ((c.get_user u.id).cache) u.id
    (CachedUser.from_user u) hsecond
  refine ⟨?_, ?_, ?_, ?_, hhit.2, hhit.1⟩
  · intro c₂ k₂ h₂
    obtain ⟨v, hget⟩ := Lru.get_of_mem h₂
    rw [Cache.get_user_hit c₂ k₂ v _ hget]
    exact ⟨rfl, v, rfl⟩
  · rw [hmissed]
  · rw [hmissed]
  · rw [hmissed]; rfl

/-- Witness for C2: a cold cache, one remote user, two lookups. -/
theorem get_user_fetch_through_witness :
    ((Cache.new exHttpUser).get_user 42).fetches = 1 ∧
    (((Cache.new exHttpUser).get_user 42).cache.get_user 42).fetches = 0 ∧
    (((Cache.new exHttpUser).get_user 42).cache.get_user 42).result =
      .ok ⟨42, "u", 1, none, false⟩ := by
  have h := get_user_fetch_through (Cache.new exHttpUser) 42 ⟨42, "u", 1, none, false⟩
    (by decide) rfl rfl (by decide)
  exact ⟨h.2.1, h.2.2.2.2.1, h.2.2.2.2.2⟩

/-- C8: a message-update event writes the cached message record exactly when
both author and kind are present in the payload (storing the pair of author
id and kind), leaves the messages table unchanged when either is absent, and
in every case merges the available author and mention fields into the
users/members tables. -/
theorem put_message_update_contract (c : Cache) (message : MessageUpdate) :
    (∀ author kind, message.author = some author → message.kind = some kind →
      (c.put_message_update message).messages =
        c.messages.put message.id ⟨author.id, kind⟩) ∧
    (message.author = none ∨ message.kind = none →
      (c.put_message_update message).messages = c.messages) ∧
    (c.put_message_update message).users =
      Lru.putAll c.users (message_update_user_puts message) ∧
    (c.put_message_update message).members =
      Lru.putAll c.members (message_update_member_puts message) :=
  ⟨fun author kind ha hk => Cache.put_message_update_messages_written c message author kind ha hk,
    Cache.put_message_update_messages_unchanged c message,
    Cache.put_message_update_users c message,
    Cache.put_message_update_members c message⟩

/-- A mention carrying no member snippet. -/
def exMention6 : Mention := ⟨6, "m", 2, none, false, none⟩

/-- A message update without author (mentions present). -/
def exUpdateNoAuthor : MessageUpdate :=
  { id := 1, channel_id := 2, guild_id := some 3, author := none,
    kind := some .Regular, mentions := some [exMention6] }

/-- A message update with author and kind (no mentions). -/
def exUpdateFull : MessageUpdate :=
  { id := 1, channel_id := 2, guild_id := some 3,
    author := some ⟨4, "a", 1, none, false⟩, kind := some .Regular, mentions := none }

/-- Witness for C8: an update without author leaves the messages table alone
while an update with author and kind writes the message record. -/
theorem put_message_update_contract_witness :
    ((Cache.new httpNone).put_message_update exUpdateNoAuthor).messages =
      (Cache.new httpNone).messages ∧
    ((Cache.new httpNone).put_message_update exUpdateFull).messages =
      (Cache.new httpNone).messages.put 1 ⟨4, .Regular⟩ := by
  constructor
  · exact (put_message_update_contract (Cache.new httpNone) exUpdateNoAuthor).2.1 (Or.inl rfl)
  · exact (put_message_update_contract (Cache.new httpNone) exUpdateFull).1
      ⟨4, "a", 1, none, false⟩ .Regular rfl rfl

/-- C10: `get_role` on an uncached role id issues exactly one remote fetch of
the guild's full role list, stores every returned role in the roles table
(the table becomes exactly the old table with every returned role put into
it, and each returned role is present whenever the list fits the capacity),
returns the requested role when the list contains it, and fails with the
not-found error exactly when the fetched list lacks the requested id. -/
theorem get_role_fetches_all_roles (c : Cache) (guild_id role_id : Nat) (rs : List Role)
    (hmiss : role_id ∉ c.roles.keys) (hfetch : c.http.roles guild_id = some rs) :
    (c.get_role guild_id role_id).fetches = 1 ∧
    (c.get_role guild_id role_id).cache.roles =
      Lru.putAll c.roles (rs.map (fun r => (r.id, CachedRole.from_role r))) ∧
    (∀ r, rs.find? (fun role => role.id == role_id) = some r →
      (c.get_role guild_id role_id).result = .ok (CachedRole.from_role r)) ∧
    (rs.find? (fun role => role.id == role_id) = none →
      (c.get_role guild_id role_id).result = .error .notFound) ∧
    (rs.length ≤ c.roles.cap →
      ∀ r ∈ rs, r.id ∈ (c.get_role guild_id role_id).cache.roles.keys) := by
  have hmem : ∀ r ∈ rs, rs.length ≤ c.roles.cap →
      r.id ∈ (Lru.putAll c.roles (rs.map (fun r => (r.id, CachedRole.from_role r)))).keys := by
    intro r hr hlen
    exact Lru.mem_keys_putAll _ c.roles r.id
      (by simpa using List.mem_map.mpr ⟨r, hr, rfl⟩) (by simpa using hlen)
  cases hfind : rs.find? (fun role => role.id == role_id) with
  | some role =>
    have hentry : c.get_role guild_id role_id =
        ⟨.ok (CachedRole.from_role role), rs.foldl Cache.put_role c, 1⟩ := by
      simp [Cache.get_role, Lru.get_of_not_mem hmiss, hfetch, hfind]
    rw [hentry]
    refine ⟨rfl, Cache.foldl_put_role_roles rs c, ?_, ?_, ?_⟩
    · intro r hr
      injection hr with hr'
      subst hr'
      rfl
    · intro hnone
      cases hnone
    · intro hlen r hr
      rw [Cache.foldl_put_role_roles rs c]
      exact hmem r hr hlen
  | none =>
    have hentry : c.get_role guild_id role_id =
        ⟨.error .notFound, rs.foldl Cache.put_role c, 1⟩ := by
      simp [Cache.get_role, Lru.get_of_not_mem hmiss, hfetch, hfind]
    rw [hentry]
    refine ⟨rfl, Cache.foldl_put_role_roles rs c, ?_, fun _ => rfl, ?_⟩
    · intro r hr
      cases hr
    · intro hlen r hr
      rw [Cache.foldl_put_role_roles rs c]
      exact hmem r hr hlen

/-- Witness for C10: a cold cache whose remote returns two roles; fetching
one role stores and returns it, and the other is stored as well. -/
theorem get_role_fetches_all_roles_witness :
    ((Cache.new exHttpRoles).get_role 11 21).fetches = 1 ∧
    ((Cache.new exHttpRoles).get_role 11 21).result = .ok (CachedRole.from_role exRole21) ∧
    20 ∈ ((Cache.new exHttpRoles).get_role 11 21).cache.roles.keys := by
  have h := get_role_fetches_all_roles (Cache.new exHttpRoles) 11 21 [exRole20, exRole21]
    (by decide) rfl
  exact ⟨h.1, h.2.2.1 exRole21 (by decide), h.2.2.2.2 (by decide) exRole20 (by decide)⟩

/-- C3: every entity table of a fresh cache has the same fixed capacity
(5000); on a full table, putting a fresh key evicts exactly the
least-recently-used (last) key — the new key list is the new key followed by
every old key except the last — while a `put_user` touches no other table of
the cache; and a `get` promotes its key to most-recently-used, so the key is
still present after the next insertion. -/
theorem lru_eviction_and_promotion {K V : Type} [DecidableEq K]
    (c : Lru K V) (k k' klast k'' : K) (v' v'' : V)
    (hfull : c.entries.length = c.cap) (hcap : 2 ≤ c.cap)
    (hnodup : c.keys.Nodup) (hfresh : k' ∉ c.keys) (hk : k ∈ c.keys)
    (hlast : c.keys.getLast? = some klast) :
    (∀ (o : Http), (Cache.new o).users.cap = 5000 ∧ (Cache.new o).guilds.cap = 5000 ∧
      (Cache.new o).roles.cap = 5000 ∧ (Cache.new o).members.cap = 5000 ∧
      (Cache.new o).channels.cap = 5000 ∧ (Cache.new o).messages.cap = 5000) ∧
    (c.put k' v').keys = k' :: c.keys.dropLast ∧
    klast ∉ (c.put k' v').keys ∧
    (∀ (c₂ : Cache) (u : User), (c₂.put_user u).guilds = c₂.guilds ∧
      (c₂.put_user u).roles = c₂.roles ∧ (c₂.put_user u).members = c₂.members ∧
      (c₂.put_user u).channels = c₂.channels ∧ (c₂.put_user u).messages = c₂.messages) ∧
    k ∈ (((c.get k).2).put k'' v'').keys := by
  have hkeys := Lru.put_fresh_full_keys v' hfresh hfull (by omega)
  refine ⟨fun o => ⟨rfl, rfl, rfl, rfl, rfl, rfl⟩, hkeys, ?_, fun c₂ u => ⟨rfl, rfl, rfl, rfl, rfl⟩, ?_⟩
  · rw [hkeys]
    have hsplit : c.keys.dropLast ++ [klast] = c.keys :=
      List.dropLast_append_getLast? klast hlast
    have hkl : klast ∈ c.keys := by
      rw [← hsplit]
      exact List.mem_append_right _ (by simp)
    have hne : klast ≠ k' := fun he => hfresh (he ▸ hkl)
    have hnd : (c.keys.dropLast ++ [klast]).Nodup := by
      rw [hsplit]
      exact hnodup
    have hdisj := (List.nodup_append.mp hnd).2.2
    intro hmem
    rcases List.mem_cons.mp hmem with he | hmem'
    · exact hne he
    · exact hdisj hmem' (by simp)
  · obtain ⟨v, hget⟩ := Lru.get_of_mem hk
    rw [hget]
    set c₁ : Lru K V :=
      { c with entries := (k, v) :: c.entries.filter (fun p => !(p.1 == k)) } with hc₁
    have hfront : ∃ w, (k, w) ∈ c₁.entries.take 1 := ⟨v, by simp [hc₁]⟩
    have hcap₁ : 1 + (1 : Nat) ≤ c₁.cap := by simp [hc₁]; omega
    have hsurv := Lru.mem_take_putAll [(k'', v'')] c₁ k 1 hfront (by simpa using hcap₁)
    rw [Lru.mem_keys_iff]
    obtain ⟨w, hw⟩ := hsurv
    exact ⟨w, List.take_subset _ _ (by simpa using hw)⟩

/-- Witness for C3 on a concrete two-entry table at capacity. -/
theorem lru_eviction_and_promotion_witness :
    ((⟨2, [(1, 10), (2, 20)]⟩ : Lru Nat Nat).put 3 30).keys =
      3 :: ([1, 2] : List Nat).dropLast ∧
    2 ∉ ((⟨2, [(1, 10), (2, 20)]⟩ : Lru Nat Nat).put 3 30).keys ∧
    1 ∈ ((((⟨2, [(1, 10), (2, 20)]⟩ : Lru Nat Nat).get 1).2).put 4 40).keys := by
  have h := lru_eviction_and_promotion (⟨2, [(1, 10), (2, 20)]⟩ : Lru Nat Nat)
    1 3 2 4 30 40 (by decide) (by decide) (by decide) (by decide) (by decide) (by decide)
  exact ⟨h.2.1, h.2.2.1, h.2.2.2.2⟩

/-- A key present in the users table is retrieved with zero remote fetches. -/
theorem Cache.get_user_fetches_zero_of_mem (c : Cache) (k : Nat)
    (h : k ∈ c.users.keys) : (c.get_user k).fetches = 0 := by
  obtain ⟨v, hget⟩ := Lru.get_of_mem h
  rw [Cache.get_user_hit c k v _ hget]

/-- C1 (amended): provided the message mentions fewer than 5000 users (the
fixed per-table capacity), after `put_message` the author's User record is in
the users table (and the author's Member record is in the members table when
the message carries a guild id and a membership snippet), every mentioned
user's User record is in the users table (and their Member record when a
snippet is attached), and each such user is retrieved by `get_user` with zero
remote fetches. (With 5000 or more mentions the records stored earliest in
the same call can be LRU-evicted again before `put_message` returns.) -/
theorem put_message_backfill_bounded (c : Cache) (message : Message)
    (hucap : c.users.cap = 5000) (hmcap : c.members.cap = 5000)
    (hlen : message.mentions.length < 5000) :
    message.author.id ∈ (c.put_message message).users.keys ∧
    ((c.put_message message).get_user message.author.id).fetches = 0 ∧
    (∀ guild_id member, message.guild_id = some guild_id → message.member = some member →
      (guild_id, message.author.id) ∈ (c.put_message message).members.keys) ∧
    (∀ m ∈ message.mentions, m.id ∈ (c.put_message message).users.keys ∧
      ((c.put_message message).get_user m.id).fetches = 0) ∧
    (∀ m ∈ message.mentions, ∀ guild_id member, message.guild_id = some guild_id →
      m.member = some member → (guild_id, m.id) ∈ (c.put_message message).members.keys) := by
  have husers := Cache.put_message_users c message
  have hmembers := Cache.put_message_members c message
  have hulen : (message_user_puts message).length ≤ c.users.cap := by
    simp [message_user_puts, mention_user_puts, hucap]
    omega
  have hmlen : (message_member_puts message).length ≤ c.members.cap := by
    have h1 : (mention_member_puts message.guild_id message.mentions).length ≤
        message.mentions.length := List.length_filterMap_le _ _
    rw [message_member_puts, List.length_append, hmcap]
    cases hg : message.guild_id <;> cases hmem : message.member <;>
      rw [hg] at h1 <;>
      simp only [List.length_cons, List.length_nil] <;> omega
  have hauthor_mem : message.author.id ∈ (c.put_message message).users.keys := by
    rw [husers]
    exact Lru.mem_keys_putAll _ c.users _ (by simp [message_user_puts]) hulen
  have hmention_mem : ∀ m ∈ message.mentions,
      m.id ∈ (c.put_message message).users.keys := by
    intro m hm
    rw [husers]
    refine Lru.mem_keys_putAll _ c.users _ ?_ hulen
    simp only [message_user_puts, List.map_cons, List.mem_cons]
    right
    simp only [mention_user_puts, List.map_map]
    exact List.mem_map.mpr ⟨m, hm, rfl⟩
  refine ⟨hauthor_mem, Cache.get_user_fetches_zero_of_mem _ _ hauthor_mem, ?_, ?_, ?_⟩
  · intro guild_id member hg hmem
    rw [hmembers]
    refine Lru.mem_keys_putAll _ c.members _ ?_ hmlen
    simp [message_member_puts, hg, hmem]
  · intro m hm
    exact ⟨hmention_mem m hm, Cache.get_user_fetches_zero_of_mem _ _ (hmention_mem m hm)⟩
  · intro m hm guild_id member hg hmem
    rw [hmembers]
    refine Lru.mem_keys_putAll _ c.members _ ?_ hmlen
    rw [message_member_puts, List.map_append]
    refine List.mem_append_right _ ?_
    refine List.mem_map.mpr ⟨((guild_id, m.id), CachedMember.from_partial member), ?_, rfl⟩
    exact List.mem_filterMap.mpr ⟨m, hm, by rw [hg, hmem]⟩

/-- Witness for C1's amended theorem: a two-mention message with guild
context and membership snippets on a cold cache. -/
theorem put_message_backfill_bounded_witness :
    4 ∈ ((Cache.new httpNone).put_message
      { id := 1, channel_id := 2, guild_id := some 3,
        author := ⟨4, "a", 1, none, false⟩, member := some ⟨some "nick", [7]⟩,
        mentions := [⟨6, "m", 2, none, false, some ⟨none, []⟩⟩],
        kind := .Regular }).users.keys ∧
    6 ∈ ((Cache.new httpNone).put_message
      { id := 1, channel_id := 2, guild_id := some 3,
        author := ⟨4, "a", 1, none, false⟩, member := some ⟨some "nick", [7]⟩,
        mentions := [⟨6, "m", 2, none, false, some ⟨none, []⟩⟩],
        kind := .Regular }).users.keys ∧
    (3, 4) ∈ ((Cache.new httpNone).put_message
      { id := 1, channel_id := 2, guild_id := some 3,
        author := ⟨4, "a", 1, none, false⟩, member := some ⟨some "nick", [7]⟩,
        mentions := [⟨6, "m", 2, none, false, some ⟨none, []⟩⟩],
        kind := .Regular }).members.keys ∧
    (3, 6) ∈ ((Cache.new httpNone).put_message
      { id := 1, channel_id := 2, guild_id := some 3,
        author := ⟨4, "a", 1, none, false⟩, member := some ⟨some "nick", [7]⟩,
        mentions := [⟨6, "m", 2, none, false, some ⟨none, []⟩⟩],
        kind := .Regular }).members.keys := by
  have h := put_message_backfill_bounded (Cache.new httpNone)
    { id := 1, channel_id := 2, guild_id := some 3,
      author := ⟨4, "a", 1, none, false⟩, member := some ⟨some "nick", [7]⟩,
      mentions := [⟨6, "m", 2, none, false, some ⟨none, []⟩⟩],
      kind := .Regular }
    rfl rfl (by decide)
  refine ⟨h.1, (h.2.2.2.1 ⟨6, "m", 2, none, false, some ⟨none, []⟩⟩ (by decide)).1,
    h.2.2.1 3 ⟨some "nick", [7]⟩ rfl rfl, ?_⟩
  exact h.2.2.2.2 ⟨6, "m", 2, none, false, some ⟨none, []⟩⟩ (by decide) 3 ⟨none, []⟩ rfl rfl

/-- The author of the C1 counterexample message. -/
def exAuthor : User := ⟨0, "author", 1, none, false⟩

/-- Mentioned user number `i` (ids 1..5000, no member snippets). -/
def exManyMention (i : Nat) : Mention := ⟨i + 1, "m", 2, none, false, none⟩

/-- A message by user 0 mentioning 5000 distinct other users. -/
def exHugeMessage : Message :=
  { id := 500, channel_id := 7, guild_id := some 1, author := exAuthor,
    member := none, mentions := (List.range 5000).map exManyMention, kind := .Regular }

set_option maxRecDepth 8000 in
/-- C1 counterexample: storing `exHugeMessage` through the message-create
path leaves the author's User record *absent* from the users table — the 5000
mention backfills evict the author (put first, hence least recently used)
from the 5000-capacity table within the same `put_message` call. -/
theorem put_message_author_evicted_counterexample :
    0 ∉ ((Cache.new httpNone).update (.MessageCreate exHugeMessage)).users.keys := by
  intro hmem
  have husers : ((Cache.new httpNone).update (.MessageCreate exHugeMessage)).users =
      Lru.putAll (Cache.new httpNone).users (message_user_puts exHugeMessage) :=
    Cache.put_message_users (Cache.new httpNone) exHugeMessage
  have hmap : (message_user_puts exHugeMessage).map Prod.fst =
      0 :: (List.range 5000).map (fun i => i + 1) := by
    simp [message_user_puts, mention_user_puts, exHugeMessage, exAuthor, exManyMention,
      List.map_map]
  have hfresh : ∀ k ∈ (message_user_puts exHugeMessage).map Prod.fst,
      k ∉ (Cache.new httpNone).users.keys := by
    intro k _ hk
    simp [Cache.new, Lru.keys] at hk
  have hnodup : ((message_user_puts exHugeMessage).map Prod.fst).Nodup := by
    rw [hmap]
    refine List.nodup_cons.mpr ⟨?_, ?_⟩
    · intro h
      obtain ⟨i, _, hi⟩ := List.mem_map.mp h
      omega
    · exact (List.nodup_range 5000).map (fun a b h => by omega)
  have hlen0 : (Cache.new httpNone).users.entries.length ≤ (Cache.new httpNone).users.cap := by
    simp [Cache.new]
  have hent := Lru.putAll_fresh (message_user_puts exHugeMessage)
    (Cache.new httpNone).users hfresh hnodup hlen0
  rw [husers] at hmem
  obtain ⟨v, hv⟩ := (Lru.mem_keys_iff _ _).mp hmem
  rw [hent] at hv
  have hcap : (Cache.new httpNone).users.cap = 5000 := rfl
  have hnil : (Cache.new httpNone).users.entries = [] := rfl
  rw [hcap, hnil, List.append_nil] at hv
  have hrev : (message_user_puts exHugeMessage).reverse =
      (mention_user_puts exHugeMessage.mentions).reverse ++
        [(exHugeMessage.author.id, CachedUser.from_user exHugeMessage.author)] := by
    rw [message_user_puts, List.reverse_cons]
  have htail_len : (mention_user_puts exHugeMessage.mentions).reverse.length = 5000 := by
    simp [mention_user_puts, exHugeMessage]
  rw [hrev, List.take_append_eq_append_take, htail_len] at hv
  rw [List.take_of_length_le (le_of_eq htail_len), Nat.sub_self, List.take_zero,
    List.append_nil, List.mem_reverse] at hv
  obtain ⟨m, hm, hpair⟩ := List.mem_map.mp hv
  have hid : m.id = 0 := congrArg Prod.fst hpair
  rw [show exHugeMessage.mentions = (List.range 5000).map exManyMention from rfl] at hm
  obtain ⟨i, _, hie⟩ := List.mem_map.mp hm
  rw [← hie] at hid
  simp [exManyMention] at hid
